import Mathlib

/-
Shallow embedding of the benchmark-telemetry analysis scripts
(scripts/analyze_results.py, scripts/analyze-external-rss.py,
scripts/compare-results.py, scripts/compare-queue.py).

Modelling conventions:
* Python strings are `List Char`; a text artifact is a `List (List Char)`
  of its lines (the trailing newline of a line is immaterial because the
  scripts strip whitespace from both ends before using a line).
* Python arbitrary-precision integers are `ℤ`; Python float arithmetic is
  modelled by exact rational arithmetic over `ℚ`.
* A raised exception is an `Except` error (`PyErr` names the exception
  class); Python `None` is `Option.none`.
* `str.strip`, `str.split`, `str.startswith` and `int(...)` are modelled
  over ASCII text by the `py*` functions below, following Python semantics
  (including sign handling and single underscores between digits for
  `int`, and both-sided whitespace stripping for `strip`).
-/

/-- Characters stripped by Python `str.strip()` (ASCII whitespace). -/
def pyIsSpace (c : Char) : Bool :=
  c = ' ' || c = '\t' || c = '\n' || c = '\r' || c = '\x0b' || c = '\x0c'

/-- Python `s.strip()`: drop whitespace from both ends. -/
def pyStrip (l : List Char) : List Char :=
  ((l.dropWhile pyIsSpace).reverse.dropWhile pyIsSpace).reverse

/-- Trailing-whitespace-only trimming (used to state the spec's wording). -/
def pyStripRight (l : List Char) : List Char :=
  (l.reverse.dropWhile pyIsSpace).reverse

/-- Python `s.split(',')`: split at every comma, keeping empty fields. -/
def pySplitComma : List Char → List (List Char)
  | [] => [[]]
  | c :: rest =>
    match pySplitComma rest with
    | [] => [[]]
    | f :: fs => if c = ',' then [] :: f :: fs else (c :: f) :: fs

/-- Python `s.startswith(p)` on character lists. -/
def pyStartsWith : List Char → List Char → Bool
  | [], _ => true
  | _ :: _, [] => false
  | p :: ps, c :: cs => p = c && pyStartsWith ps cs

/-- Tail of a Python integer-literal digit run: digits, with single
underscores allowed between digits only. -/
def pyDigitTail : List Char → Bool
  | [] => true
  | '_' :: rest =>
    match rest with
    | [] => false
    | c :: rest2 => c.isDigit && pyDigitTail rest2
  | c :: rest => c.isDigit && pyDigitTail rest

/-- A valid Python base-10 digit run: nonempty, starts with a digit. -/
def pyDigitRun : List Char → Bool
  | [] => false
  | c :: rest => c.isDigit && pyDigitTail rest

/-- Numeric value of a digit run, ignoring the underscore separators. -/
def digitsVal (l : List Char) : ℕ :=
  (l.filter (fun c => c != '_')).foldl (fun acc c => 10 * acc + (c.toNat - 48)) 0

/-- Python `int(s)`: strip whitespace, optional sign, digit run with
underscores; `none` models a raised `ValueError`. -/
def pyInt (l : List Char) : Option ℤ :=
  match pyStrip l with
  | '+' :: rest => if pyDigitRun rest then some ((digitsVal rest : ℤ)) else none
  | '-' :: rest => if pyDigitRun rest then some (-(digitsVal rest : ℤ)) else none
  | t => if pyDigitRun t then some ((digitsVal t : ℤ)) else none

/-- One loop iteration of `analyze_rss` (scripts/analyze-external-rss.py,
lines 11-21) and of `load_external_rss` (scripts/compare-results.py, lines
21-31), which duplicate it verbatim: the sample value a line contributes,
or `none` when the line is skipped (blank line, `startswith('timestamp')`
header check, fewer than 3 comma-separated fields, or `int` failure on the
third field). -/
def lineValue (l : List Char) : Option ℤ :=
  let t := pyStrip l
  if t = [] then none
  else if pyStartsWith ("timestamp".data) t then none
  else
    let parts := pySplitComma t
    if 3 ≤ parts.length then pyInt (parts.getD 2 []) else none

/-- Result dictionary of `analyze_rss` (scripts/analyze-external-rss.py,
lines 30-38). -/
structure RssSummary where
  sample_count : ℕ
  min_rss_kb : ℤ
  max_rss_kb : ℤ
  avg_rss_kb : ℚ
  min_rss_mb : ℚ
  max_rss_mb : ℚ
  avg_rss_mb : ℚ

deriving instance DecidableEq for RssSummary

/-- Reduction step of `analyze_rss` (lines 23-38): `None` on an empty
value list, otherwise min/max/avg in KB and the same divided by 1024. -/
def rssOfValues : List ℤ → Option RssSummary
  | [] => none
  | v :: vs =>
    let mn := vs.foldl min v
    let mx := vs.foldl max v
    let avg : ℚ := ((v :: vs).sum : ℚ) / ((v :: vs).length : ℚ)
    some ⟨(v :: vs).length, mn, mx, avg, (mn : ℚ) / 1024, (mx : ℚ) / 1024, avg / 1024⟩

/-- `analyze_rss(filename)` (scripts/analyze-external-rss.py, lines 6-38),
with the file contents given as a list of lines. -/
def analyzeRss (lines : List (List Char)) : Option RssSummary :=
  rssOfValues (lines.filterMap lineValue)

/-- Result dictionary of `load_external_rss` (scripts/compare-results.py,
lines 36-40): min/max/avg in MB. -/
structure ExternalRss where
  min : ℚ
  max : ℚ
  avg : ℚ

deriving instance DecidableEq for ExternalRss

/-- Reduction step of `load_external_rss` (lines 33-40). -/
def extOfValues : List ℤ → Option ExternalRss
  | [] => none
  | v :: vs =>
    some ⟨((vs.foldl min v : ℤ) : ℚ) / 1024, ((vs.foldl max v : ℤ) : ℚ) / 1024,
      ((((v :: vs).sum : ℤ) : ℚ) / (((v :: vs).length : ℕ) : ℚ)) / 1024⟩

/-- `load_external_rss(filename)` (scripts/compare-results.py, lines
14-40), with the file contents given as a list of lines. -/
def loadExternalRss (lines : List (List Char)) : Option ExternalRss :=
  extOfValues (lines.filterMap lineValue)

/-- Python exception classes raised by the analysis code. -/
inductive PyErr where
  | keyError
  | valueError
  | zeroDivision

deriving instance DecidableEq for PyErr

/-- One JSON record of a timeline artifact (`stats_*.json`), as accessed by
`analyze_file` (scripts/analyze_results.py).  A field is `none` when the
key is absent from the record; accessing it then raises `KeyError`. -/
structure RawRecord where
  heap_alloc : Option ℤ
  rss : Option ℤ
  message_bytes : Option ℤ
  message_count : Option ℤ
  batch_count : Option ℤ
  num_gc : Option ℤ
  pause_total_ns : Option ℤ

deriving instance DecidableEq for RawRecord

/-- A well-formed timeline record carrying every field `analyze_file`
reads. -/
structure FullRecord where
  heap_alloc : ℤ
  rss : ℤ
  message_bytes : ℤ
  message_count : ℤ
  batch_count : ℤ
  num_gc : ℤ
  pause_total_ns : ℤ

deriving instance DecidableEq for FullRecord

/-- View a well-formed record as a raw record with every key present. -/
def toRaw (f : FullRecord) : RawRecord :=
  ⟨some f.heap_alloc, some f.rss, some f.message_bytes, some f.message_count,
    some f.batch_count, some f.num_gc, some f.pause_total_ns⟩

/-- Evaluating `s[key]` for every record of a generator, as
`max(s['heap_alloc'] for s in stats)` does: the first absent key raises
`KeyError`. -/
def sequenceFields : List (Option ℤ) → Except PyErr (List ℤ)
  | [] => .ok []
  | none :: _ => .error .keyError
  | some v :: rest =>
    match sequenceFields rest with
    | .ok vs => .ok (v :: vs)
    | .error e => .error e

/-- Python `max(...)` over integers: `ValueError` on an empty sequence. -/
def pyMaxExc : List ℤ → Except PyErr ℤ
  | [] => .error .valueError
  | x :: xs => .ok (xs.foldl max x)

/-- The result dictionary built by `analyze_file`
(scripts/analyze_results.py, lines 40-53).  The `file` field holds the
basename label used by the report and the ranking. -/
structure RunSummary where
  file : String
  message_count : ℤ
  message_bytes : ℤ
  batch_count : ℤ
  max_heap : ℤ
  max_rss : ℤ
  final_heap : ℤ
  final_rss : ℤ
  heap_ratio : ℚ
  rss_ratio : ℚ
  num_gc : ℤ
  gc_pause_ms : ℚ

deriving instance DecidableEq for RunSummary

deriving instance DecidableEq for Except

/-- The amplification-ratio expression of scripts/analyze_results.py lines
37-38 (`max / message_bytes if message_bytes > 0 else 0`), shared verbatim
by both the heap and the RSS ratio. -/
def amplification (peak : ℤ) (message_bytes : ℤ) : ℚ :=
  if 0 < message_bytes then (peak : ℚ) / (message_bytes : ℚ) else 0

/-- `analyze_file(filepath)` (scripts/analyze_results.py, lines 19-53),
with the parsed JSON list given as `stats` and the file's basename as
`name`.  Returns `.ok none` for an empty list (`if not stats: return
None`), `.error` when a record is missing a field the function reads
(Python raises `KeyError` out of `analyze_file`), and otherwise the
summary dictionary. -/
def analyzeFile (name : String) (stats : List RawRecord) : Except PyErr (Option RunSummary) :=
  match stats with
  | [] => .ok none
  | s0 :: rest =>
    match sequenceFields ((s0 :: rest).map RawRecord.heap_alloc),
          sequenceFields ((s0 :: rest).map RawRecord.rss) with
    | .ok heaps, .ok rsss =>
      match pyMaxExc heaps, pyMaxExc rsss with
      | .ok max_heap, .ok max_rss =>
        let fin := rest.getLastD s0
        match fin.message_bytes, fin.message_count, fin.batch_count,
              fin.heap_alloc, fin.rss, fin.num_gc, fin.pause_total_ns with
        | some mb, some mc, some bc, some fh, some fr, some ng, some pns =>
          .ok (some
            { file := name
              message_count := mc
              message_bytes := mb
              batch_count := bc
              max_heap := max_heap
              max_rss := max_rss
              final_heap := fh
              final_rss := fr
              heap_ratio := amplification max_heap mb
              rss_ratio := amplification max_rss mb
              num_gc := ng
              gc_pause_ms := (pns : ℚ) / 1000000 })
        | _, _, _, _, _, _, _ => .error .keyError
      | _, _ => .error .valueError
    | _, _ => .error .keyError

/-- The per-file loop of `main` (scripts/analyze_results.py, lines 67-74):
`analyze_file` is attempted per artifact inside `try/except`; an artifact
whose analysis raises, or returns `None`, is dropped, and the loop moves
on to the next artifact. -/
def mainResults : List (String × List RawRecord) → List RunSummary
  | [] => []
  | (n, st) :: rest =>
    match analyzeFile n st with
    | .ok (some r) => r :: mainResults rest
    | .ok none => mainResults rest
    | .error _ => mainResults rest

/-- Python `min(results, key=key)`: scan left to right, replacing the
current best only on a strictly smaller key, so the first minimum wins. -/
def pyMinBy {α : Type} (key : α → ℚ) (x : α) (xs : List α) : α :=
  xs.foldl (fun b r => if key r < key b then r else b) x

/-- Python `max(results, key=key)`: scan left to right, replacing the
current best only on a strictly larger key, so the first maximum wins. -/
def pyMaxBy {α : Type} (key : α → ℚ) (x : α) (xs : List α) : α :=
  xs.foldl (fun b r => if key b < key r then r else b) x

/-- The ranking block of `main` (scripts/analyze_results.py, lines
107-113): only entered for more than one result; best = `min` by
`heap_ratio`, worst = `max` by `heap_ratio`, and the improvement factor is
`worst_ratio / best_ratio`, a Python float division that raises
`ZeroDivisionError` when the best ratio is exactly zero. -/
def rankResults : List RunSummary → Option (Except PyErr (String × String × ℚ))
  | x :: y :: rest =>
    let best := pyMinBy RunSummary.heap_ratio x (y :: rest)
    let worst := pyMaxBy RunSummary.heap_ratio x (y :: rest)
    if best.heap_ratio = 0 then some (.error .zeroDivision)
    else some (.ok (best.file, worst.file, worst.heap_ratio / best.heap_ratio))
  | _ => none

/-- The pre-reduced `summary` object of a stats artifact, as read by
`print_comparison` in scripts/compare-results.py and
scripts/compare-queue.py. -/
structure StatsSummary where
  min_heap_alloc : ℚ
  max_heap_alloc : ℚ
  avg_heap_alloc : ℚ
  final_heap_alloc : ℚ
  min_rss : ℚ
  max_rss : ℚ
  avg_rss : ℚ
  final_rss : ℚ
  message_bytes : ℚ
  message_count : ℚ

deriving instance DecidableEq for StatsSummary

/-- The savings computation shared by every metric block of the two
comparison scripts: absolute difference, and percentage of the baseline
guarded by `baseline > 0`. -/
def savings (baseline : ℚ) (variant : ℚ) : ℚ × ℚ :=
  (baseline - variant, if 0 < baseline then (baseline - variant) / baseline * 100 else 0)

/-- Max-HeapAlloc savings block (scripts/compare-results.py, lines
136-140). -/
def maxHeapSavings (no_s with_s : StatsSummary) : ℚ × ℚ :=
  let a := no_s.max_heap_alloc / 1024 / 1024
  let b := with_s.max_heap_alloc / 1024 / 1024
  (a - b, if 0 < a then (a - b) / a * 100 else 0)

/-- Avg-HeapAlloc savings block (scripts/compare-results.py, lines
148-152). -/
def avgHeapSavings (no_s with_s : StatsSummary) : ℚ × ℚ :=
  let a := no_s.avg_heap_alloc / 1024 / 1024
  let b := with_s.avg_heap_alloc / 1024 / 1024
  (a - b, if 0 < a then (a - b) / a * 100 else 0)

/-- Max-RSS savings block (scripts/compare-results.py, lines 160-164). -/
def maxRssSavings (no_s with_s : StatsSummary) : ℚ × ℚ :=
  let a := no_s.max_rss / 1024 / 1024
  let b := with_s.max_rss / 1024 / 1024
  (a - b, if 0 < a then (a - b) / a * 100 else 0)

/-- External max-RSS savings block (scripts/compare-results.py, lines
173-177); the external summary values are already in MB. -/
def extMaxSavings (e1 e2 : ExternalRss) : ℚ × ℚ :=
  (e1.max - e2.max, if 0 < e1.max then (e1.max - e2.max) / e1.max * 100 else 0)

/-- Max-HeapAlloc savings block of the queue comparison
(scripts/compare-queue.py, lines 90-94). -/
def qMaxHeapSavings (queue_1000 queue_100 : StatsSummary) : ℚ × ℚ :=
  let a := queue_1000.max_heap_alloc / 1024 / 1024
  let b := queue_100.max_heap_alloc / 1024 / 1024
  (a - b, if 0 < a then (a - b) / a * 100 else 0)

/-- Avg-HeapAlloc savings block of the queue comparison
(scripts/compare-queue.py, lines 102-106). -/
def qAvgHeapSavings (queue_1000 queue_100 : StatsSummary) : ℚ × ℚ :=
  let a := queue_1000.avg_heap_alloc / 1024 / 1024
  let b := queue_100.avg_heap_alloc / 1024 / 1024
  (a - b, if 0 < a then (a - b) / a * 100 else 0)

/-- Max-RSS savings block of the queue comparison
(scripts/compare-queue.py, lines 114-118). -/
def qMaxRssSavings (queue_1000 queue_100 : StatsSummary) : ℚ × ℚ :=
  let a := queue_1000.max_rss / 1024 / 1024
  let b := queue_100.max_rss / 1024 / 1024
  (a - b, if 0 < a then (a - b) / a * 100 else 0)

/-- Modelled from the spec: the line-validity wording of the external
adapter contract, "after trimming trailing whitespace, a line contributes
a sample if and only if it is non-empty, is not the header line (defined
as first field literally `timestamp`), has at least 3 comma-separated
fields, and its third field parses as an integer". -/
def specContributes (l : List Char) : Bool :=
  let t := pyStripRight l
  if t = [] then false
  else if (pySplitComma t).getD 0 [] = ("timestamp".data) then false
  else if 3 ≤ (pySplitComma t).length then (pyInt ((pySplitComma t).getD 2 [])).isSome
  else false

/-- Every numeric value appearing in an `analyze_file` result dictionary,
as a rational. -/
def summaryValues (s : RunSummary) : List ℚ :=
  [(s.message_count : ℚ), (s.message_bytes : ℚ), (s.batch_count : ℚ),
    (s.max_heap : ℚ), (s.max_rss : ℚ), (s.final_heap : ℚ), (s.final_rss : ℚ),
    s.heap_ratio, s.rss_ratio, (s.num_gc : ℚ), s.gc_pause_ms]

/-- The summary `analyze_file` computes for a run whose records are all
well-formed: max via a full scan, final values from the last record in
the given order. -/
def fullSummary (name : String) (f0 : FullRecord) (fs : List FullRecord) : RunSummary :=
  { file := name
    message_count := (fs.getLastD f0).message_count
    message_bytes := (fs.getLastD f0).message_bytes
    batch_count := (fs.getLastD f0).batch_count
    max_heap := (fs.map FullRecord.heap_alloc).foldl max f0.heap_alloc
    max_rss := (fs.map FullRecord.rss).foldl max f0.rss
    final_heap := (fs.getLastD f0).heap_alloc
    final_rss := (fs.getLastD f0).rss
    heap_ratio := amplification ((fs.map FullRecord.heap_alloc).foldl max f0.heap_alloc)
      (fs.getLastD f0).message_bytes
    rss_ratio := amplification ((fs.map FullRecord.rss).foldl max f0.rss)
      (fs.getLastD f0).message_bytes
    num_gc := (fs.getLastD f0).num_gc
    gc_pause_ms := ((fs.getLastD f0).pause_total_ns : ℚ) / 1000000 }

/-- A well-formed timeline record used as a concrete test input. -/
def goodRec : RawRecord :=
  ⟨some 10, some 20, some 1, some 2, some 3, some 4, some 5⟩

/-- A timeline record missing the `rss` key, used as a concrete test
input. -/
def badRec : RawRecord :=
  ⟨some 7, none, some 1, some 2, some 3, some 4, some 5⟩

/-- First record of a concrete two-sample run. -/
def fr1 : FullRecord := ⟨10, 100, 1, 7, 8, 9, 4⟩

/-- Second record of a concrete two-sample run. -/
def fr2 : FullRecord := ⟨30, 300, 1, 7, 8, 9, 4⟩

/-- A concrete run summary with amplification ratio 2. -/
def runA : RunSummary := ⟨"a", 0, 0, 0, 0, 0, 0, 0, 2, 0, 0, 0⟩

/-- A concrete run summary with amplification ratio 1/2. -/
def runB : RunSummary := ⟨"b", 0, 0, 0, 0, 0, 0, 0, 1/2, 0, 0, 0⟩

/-- A concrete run summary with amplification ratio 0. -/
def runZero : RunSummary := ⟨"z", 0, 0, 0, 0, 0, 0, 0, 0, 0, 0, 0⟩

/-- A concrete run summary with amplification ratio 5. -/
def runFive : RunSummary := ⟨"f", 0, 0, 0, 0, 0, 0, 0, 5, 0, 0, 0⟩

/-- Concrete lines of an external RSS artifact used as a test input. -/
def extLines : List (List Char) := ["a,b,1".data, "c,d,3".data]

/-- The summary `analyze_rss` computes for `extLines`. -/
def extSum : RssSummary := ⟨2, 1, 3, 2, 1/1024, 3/1024, 2/1024⟩

theorem foldlMin_le (v : ℤ) (vs : List ℤ) : ∀ x ∈ v :: vs, vs.foldl min v ≤ x := by
  induction vs generalizing v with
  | nil =>
    intro x hx
    rw [List.mem_singleton] at hx
    simp [hx]
  | cons w ws ih =>
    intro x hx
    rw [List.foldl_cons]
    have hhead : ws.foldl min (min v w) ≤ min v w :=
      ih (min v w) (min v w) (List.mem_cons_self _ _)
    rcases List.mem_cons.mp hx with rfl | hx2
    · exact le_trans hhead (min_le_left _ _)
    · rcases List.mem_cons.mp hx2 with rfl | hx3
      · exact le_trans hhead (min_le_right _ _)
      · exact ih (min v w) x (List.mem_cons_of_mem _ hx3)

theorem le_foldlMax (v : ℤ) (vs : List ℤ) : ∀ x ∈ v :: vs, x ≤ vs.foldl max v := by
  induction vs generalizing v with
  | nil =>
    intro x hx
    rw [List.mem_singleton] at hx
    simp [hx]
  | cons w ws ih =>
    intro x hx
    rw [List.foldl_cons]
    have hhead : max v w ≤ ws.foldl max (max v w) :=
      ih (max v w) (max v w) (List.mem_cons_self _ _)
    rcases List.mem_cons.mp hx with rfl | hx2
    · exact le_trans (le_max_left _ _) hhead
    · rcases List.mem_cons.mp hx2 with rfl | hx3
      · exact le_trans (le_max_right _ _) hhead
      · exact ih (max v w) x (List.mem_cons_of_mem _ hx3)

theorem foldlMin_mem (v : ℤ) (vs : List ℤ) : vs.foldl min v ∈ v :: vs := by
  induction vs generalizing v with
  | nil => simp
  | cons w ws ih =>
    rw [List.foldl_cons]
    rcases List.mem_cons.mp (ih (min v w)) with h | h
    · rcases min_choice v w with hc | hc
      · rw [h, hc]; exact List.mem_cons_self _ _
      · rw [h, hc]; exact List.mem_cons_of_mem _ (List.mem_cons_self _ _)
    · exact List.mem_cons_of_mem _ (List.mem_cons_of_mem _ h)

theorem foldlMax_mem (v : ℤ) (vs : List ℤ) : vs.foldl max v ∈ v :: vs := by
  induction vs generalizing v with
  | nil => simp
  | cons w ws ih =>
    rw [List.foldl_cons]
    rcases List.mem_cons.mp (ih (max v w)) with h | h
    · rcases max_choice v w with hc | hc
      · rw [h, hc]; exact List.mem_cons_self _ _
      · rw [h, hc]; exact List.mem_cons_of_mem _ (List.mem_cons_self _ _)
    · exact List.mem_cons_of_mem _ (List.mem_cons_of_mem _ h)

theorem mul_length_le_sum (m : ℤ) (l : List ℤ) (h : ∀ x ∈ l, m ≤ x) :
    m * (l.length : ℤ) ≤ l.sum := by
  induction l with
  | nil => simp
  | cons x xs ih =>
    have h1 : m ≤ x := h x (List.mem_cons_self _ _)
    have h2 := ih (fun y hy => h y (List.mem_cons_of_mem _ hy))
    simp only [List.length_cons, List.sum_cons]
    push_cast
    rw [mul_add, mul_one]
    linarith

theorem sum_le_mul_length (m : ℤ) (l : List ℤ) (h : ∀ x ∈ l, x ≤ m) :
    l.sum ≤ m * (l.length : ℤ) := by
  induction l with
  | nil => simp
  | cons x xs ih =>
    have h1 : x ≤ m := h x (List.mem_cons_self _ _)
    have h2 := ih (fun y hy => h y (List.mem_cons_of_mem _ hy))
    simp only [List.length_cons, List.sum_cons]
    push_cast
    rw [mul_add, mul_one]
    linarith

theorem min_le_avgQ (v : ℤ) (vs : List ℤ) :
    ((vs.foldl min v : ℤ) : ℚ) ≤ (((v :: vs).sum : ℤ) : ℚ) / (((v :: vs).length : ℕ) : ℚ) := by
  have hlen : (0 : ℚ) < (((v :: vs).length : ℕ) : ℚ) := by
    have : 0 < (v :: vs).length := Nat.succ_pos _
    exact_mod_cast this
  rw [le_div_iff₀ hlen]
  have h := mul_length_le_sum (vs.foldl min v) (v :: vs) (foldlMin_le v vs)
  exact_mod_cast h

theorem avg_le_maxQ (v : ℤ) (vs : List ℤ) :
    (((v :: vs).sum : ℤ) : ℚ) / (((v :: vs).length : ℕ) : ℚ) ≤ ((vs.foldl max v : ℤ) : ℚ) := by
  have hlen : (0 : ℚ) < (((v :: vs).length : ℕ) : ℚ) := by
    have : 0 < (v :: vs).length := Nat.succ_pos _
    exact_mod_cast this
  rw [div_le_iff₀ hlen]
  have h := sum_le_mul_length (vs.foldl max v) (v :: vs) (le_foldlMax v vs)
  calc (((v :: vs).sum : ℤ) : ℚ) ≤ ((vs.foldl max v * ((v :: vs).length : ℤ) : ℤ) : ℚ) := by
        exact_mod_cast h
    _ = ((vs.foldl max v : ℤ) : ℚ) * (((v :: vs).length : ℕ) : ℚ) := by push_cast; ring

theorem sequenceFields_map_some {α : Type} (g : α → ℤ) (l : List α) :
    sequenceFields (l.map (fun a => some (g a))) = Except.ok (l.map g) := by
  induction l with
  | nil => rfl
  | cons a as ih => simp [sequenceFields, ih]

theorem sequenceFields_has_none (l : List (Option ℤ)) (h : none ∈ l) :
    sequenceFields l = Except.error PyErr.keyError := by
  induction l with
  | nil => simp at h
  | cons o os ih =>
    cases o with
    | none => rfl
    | some v =>
      have h2 : none ∈ os := by simpa using h
      simp [sequenceFields, ih h2]

theorem getLastD_map {α β : Type} (g : α → β) (d : α) (l : List α) :
    (l.map g).getLastD (g d) = g (l.getLastD d) := by
  induction l generalizing d with
  | nil => rfl
  | cons a as ih =>
    rw [List.map_cons, List.getLastD_cons, List.getLastD_cons]
    exact ih a

theorem analyzeFile_full (name : String) (f0 : FullRecord) (fs : List FullRecord) :
    analyzeFile name ((f0 :: fs).map toRaw) = Except.ok (some (fullSummary name f0 fs)) := by
  have h1 : sequenceFields ((toRaw f0 :: List.map toRaw fs).map RawRecord.heap_alloc)
      = Except.ok (f0.heap_alloc :: List.map FullRecord.heap_alloc fs) := by
    rw [← List.map_cons, List.map_map]
    exact sequenceFields_map_some (fun a => a.heap_alloc) (f0 :: fs)
  have h2 : sequenceFields ((toRaw f0 :: List.map toRaw fs).map RawRecord.rss)
      = Except.ok (f0.rss :: List.map FullRecord.rss fs) := by
    rw [← List.map_cons, List.map_map]
    exact sequenceFields_map_some (fun a => a.rss) (f0 :: fs)
  have h3 : (List.map toRaw fs).getLastD (toRaw f0) = toRaw (fs.getLastD f0) :=
    getLastD_map toRaw f0 fs
  rw [List.map_cons]
  unfold analyzeFile
  simp only []
  rw [h1, h2]
  simp only [pyMaxExc]
  simp only [h3, toRaw]
  simp only [fullSummary]
  cases hgl : fs.getLast? with
  | none => simp [hgl, toRaw]
  | some a => simp [hgl, toRaw]

theorem mainResults_append (a b : List (String × List RawRecord)) :
    mainResults (a ++ b) = mainResults a ++ mainResults b := by
  induction a with
  | nil => rfl
  | cons p ps ih =>
    obtain ⟨n, st⟩ := p
    rw [List.cons_append]
    cases h : analyzeFile n st with
    | ok o =>
      cases o with
      | some r => simp [mainResults, h, ih]
      | none => simp [mainResults, h, ih]
    | error e => simp [mainResults, h, ih]

theorem pyMinBy_first {α : Type} (key : α → ℚ) (x : α) (xs : List α) :
    ∃ l₁ l₂, x :: xs = l₁ ++ pyMinBy key x xs :: l₂ ∧
      (∀ r ∈ l₁, key (pyMinBy key x xs) < key r) ∧
      (∀ r ∈ x :: xs, key (pyMinBy key x xs) ≤ key r) := by
  induction xs generalizing x with
  | nil =>
    refine ⟨[], [], rfl, ?_, ?_⟩
    · intro r hr
      simp at hr
    · intro r hr
      rw [List.mem_singleton] at hr
      simp [pyMinBy, hr]
  | cons y ys ih =>
    by_cases h : key y < key x
    · have hstep : pyMinBy key x (y :: ys) = pyMinBy key y ys := by
        simp [pyMinBy, List.foldl_cons, h]
      obtain ⟨l₁, l₂, hdec, hlt, hle⟩ := ih y
      refine ⟨x :: l₁, l₂, ?_, ?_, ?_⟩
      · rw [hstep, List.cons_append]
        exact congrArg (List.cons x) hdec
      · intro r hr
        rw [hstep]
        rcases List.mem_cons.mp hr with rfl | hr2
        · exact lt_of_le_of_lt (hle y (List.mem_cons_self _ _)) h
        · exact hlt r hr2
      · intro r hr
        rw [hstep]
        rcases List.mem_cons.mp hr with rfl | hr2
        · exact le_of_lt (lt_of_le_of_lt (hle y (List.mem_cons_self _ _)) h)
        · exact hle r hr2
    · have hstep : pyMinBy key x (y :: ys) = pyMinBy key x ys := by
        simp [pyMinBy, List.foldl_cons, h]
      obtain ⟨l₁, l₂, hdec, hlt, hle⟩ := ih x
      cases l₁ with
      | nil =>
        rw [List.nil_append] at hdec
        have hm : pyMinBy key x ys = x := by
          have := hdec
          injection this with h1 h2
          exact h1.symm
        refine ⟨[], y :: ys, ?_, ?_, ?_⟩
        · rw [hstep, hm, List.nil_append]
        · intro r hr
          simp at hr
        · intro r hr
          rw [hstep, hm]
          rcases List.mem_cons.mp hr with rfl | hr2
          · exact le_refl _
          · rcases List.mem_cons.mp hr2 with rfl | hr3
            · exact le_of_not_lt h
            · have := hle r (List.mem_cons_of_mem _ hr3)
              rwa [hm] at this
      | cons a l₁t =>
        rw [List.cons_append] at hdec
        injection hdec with hax hys
        refine ⟨x :: y :: l₁t, l₂, ?_, ?_, ?_⟩
        · rw [hstep]
          simp only [List.cons_append]
          exact congrArg (List.cons x) (congrArg (List.cons y) hys)
        · intro r hr
          rw [hstep]
          have hmx : key (pyMinBy key x ys) < key x := by
            have := hlt a (List.mem_cons_self _ _)
            rwa [← hax] at this
          rcases List.mem_cons.mp hr with rfl | hr2
          · exact hmx
          · rcases List.mem_cons.mp hr2 with rfl | hr3
            · exact lt_of_lt_of_le hmx (le_of_not_lt h)
            · exact hlt r (List.mem_cons_of_mem _ hr3)
        · intro r hr
          rw [hstep]
          rcases List.mem_cons.mp hr with rfl | hr2
          · exact hle _ (List.mem_cons_self _ _)
          · rcases List.mem_cons.mp hr2 with rfl | hr3
            · exact le_trans (hle _ (List.mem_cons_self _ _)) (le_of_not_lt h)
            · exact hle r (List.mem_cons_of_mem _ hr3)

theorem pyMaxBy_eq_neg {α : Type} (key : α → ℚ) (x : α) (xs : List α) :
    pyMaxBy key x xs = pyMinBy (fun a => -(key a)) x xs := by
  have hf : (fun (b r : α) => if key b < key r then r else b)
      = (fun (b r : α) => if -(key r) < -(key b) then r else b) := by
    funext b r
    by_cases hbr : key b < key r
    · rw [if_pos hbr, if_pos (by simpa using hbr)]
    · rw [if_neg hbr, if_neg (by simpa using hbr)]
  unfold pyMaxBy pyMinBy
  rw [hf]

theorem pyMaxBy_first {α : Type} (key : α → ℚ) (x : α) (xs : List α) :
    ∃ l₁ l₂, x :: xs = l₁ ++ pyMaxBy key x xs :: l₂ ∧
      (∀ r ∈ l₁, key r < key (pyMaxBy key x xs)) ∧
      (∀ r ∈ x :: xs, key r ≤ key (pyMaxBy key x xs)) := by
  obtain ⟨l₁, l₂, hdec, hlt, hle⟩ := pyMinBy_first (fun a => -(key a)) x xs
  rw [← pyMaxBy_eq_neg] at hdec hlt hle
  refine ⟨l₁, l₂, hdec, ?_, ?_⟩
  · intro r hr
    have := hlt r hr
    simpa using this
  · intro r hr
    have := hle r hr
    simpa using this

/-- C4: for every non-empty sequence of integer samples the computed
summary satisfies min ≤ avg ≤ max, with avg the exact arithmetic mean
(sum divided by count), and the external RSS reduction's min/max/avg in
MB are the KB statistics each divided by 1024. -/
theorem external_reduction_invariant (lines : List (List Char)) (s : RssSummary)
    (h : analyzeRss lines = some s) :
    (s.min_rss_kb : ℚ) ≤ s.avg_rss_kb ∧ s.avg_rss_kb ≤ (s.max_rss_kb : ℚ) ∧
    s.avg_rss_kb = (((lines.filterMap lineValue).sum : ℤ) : ℚ)
      / (((lines.filterMap lineValue).length : ℕ) : ℚ) ∧
    s.min_rss_mb = (s.min_rss_kb : ℚ) / 1024 ∧
    s.max_rss_mb = (s.max_rss_kb : ℚ) / 1024 ∧
    s.avg_rss_mb = s.avg_rss_kb / 1024 ∧
    s.min_rss_mb ≤ s.avg_rss_mb ∧ s.avg_rss_mb ≤ s.max_rss_mb ∧
    ∀ e, loadExternalRss lines = some e →
      e.min = s.min_rss_mb ∧ e.max = s.max_rss_mb ∧ e.avg = s.avg_rss_mb ∧
      e.min ≤ e.avg ∧ e.avg ≤ e.max := by
  rw [analyzeRss] at h
  cases hv : lines.filterMap lineValue with
  | nil =>
    rw [hv] at h
    exact absurd h (by simp [rssOfValues])
  | cons v vs =>
    rw [hv] at h
    simp only [rssOfValues, Option.some.injEq] at h
    subst h
    have hmin := min_le_avgQ v vs
    have hmax := avg_le_maxQ v vs
    refine ⟨hmin, hmax, rfl, rfl, rfl, rfl, ?_, ?_, ?_⟩
    · exact (div_le_div_iff_of_pos_right (by norm_num)).mpr hmin
    · exact (div_le_div_iff_of_pos_right (by norm_num)).mpr hmax
    · intro e he
      rw [loadExternalRss, hv] at he
      simp only [extOfValues, Option.some.injEq] at he
      subst he
      exact ⟨rfl, rfl, rfl, (div_le_div_iff_of_pos_right (by norm_num)).mpr hmin,
        (div_le_div_iff_of_pos_right (by norm_num)).mpr hmax⟩

/-- Witness for C4 at a concrete two-line artifact. -/
theorem external_reduction_invariant_witness :
    analyzeRss extLines = some extSum ∧
    ((extSum.min_rss_kb : ℚ) ≤ extSum.avg_rss_kb ∧
     extSum.avg_rss_kb ≤ (extSum.max_rss_kb : ℚ) ∧
     extSum.avg_rss_kb = (((extLines.filterMap lineValue).sum : ℤ) : ℚ)
       / (((extLines.filterMap lineValue).length : ℕ) : ℚ) ∧
     extSum.min_rss_mb = (extSum.min_rss_kb : ℚ) / 1024 ∧
     extSum.max_rss_mb = (extSum.max_rss_kb : ℚ) / 1024 ∧
     extSum.avg_rss_mb = extSum.avg_rss_kb / 1024 ∧
     extSum.min_rss_mb ≤ extSum.avg_rss_mb ∧ extSum.avg_rss_mb ≤ extSum.max_rss_mb ∧
     ∀ e, loadExternalRss extLines = some e →
       e.min = extSum.min_rss_mb ∧ e.max = extSum.max_rss_mb ∧ e.avg = extSum.avg_rss_mb ∧
       e.min ≤ e.avg ∧ e.avg ≤ e.max) := by
  have hv : extLines.filterMap lineValue = [1, 3] := by decide
  have h : analyzeRss extLines = some extSum := by
    rw [analyzeRss, hv, rssOfValues]
    simp only [extSum, RssSummary.mk.injEq, Option.some.injEq]
    norm_num [List.foldl]
  exact ⟨h, external_reduction_invariant extLines extSum h⟩

/-- C6: amplification returns peak divided by message_bytes when
message_bytes is positive and exactly 0 otherwise, including at peak = 0;
it is a total function into ℚ, so a zero divisor never propagates as an
error. -/
theorem amplification_spec (p m : ℤ) :
    (0 < m → amplification p m = (p : ℚ) / (m : ℚ)) ∧
    (m ≤ 0 → amplification p m = 0) ∧
    amplification p 0 = 0 ∧ amplification 0 m = 0 := by
  refine ⟨fun h => by rw [amplification, if_pos h],
    fun h => by rw [amplification, if_neg (not_lt.mpr h)],
    by rw [amplification, if_neg (lt_irrefl 0)], ?_⟩
  by_cases h : 0 < m
  · rw [amplification, if_pos h]
    simp
  · rw [amplification, if_neg h]

/-- Witness for C6 at concrete inputs. -/
theorem amplification_spec_witness :
    amplification 3 2 = (3 : ℚ) / (2 : ℚ) ∧ amplification 3 (-1) = 0 ∧
    amplification 3 0 = 0 ∧ amplification 0 2 = 0 :=
  ⟨(amplification_spec 3 2).1 (by norm_num), (amplification_spec 3 (-1)).2.1 (by norm_num),
    (amplification_spec 3 0).2.2.1, (amplification_spec 0 2).2.2.2⟩

/-- C7: savings returns the exact absolute difference, the percentage of
the baseline guarded by baseline > 0 and 0 otherwise, equals (0, 0) on
identical inputs, and every metric block of both comparison scripts uses
this identical formula. -/
theorem savings_spec (b v x : ℚ) (n w : StatsSummary) (e1 e2 : ExternalRss) :
    (savings b v).1 = b - v ∧
    (0 < b → (savings b v).2 = (b - v) / b * 100) ∧
    (b ≤ 0 → (savings b v).2 = 0) ∧
    savings x x = (0, 0) ∧
    maxHeapSavings n w = savings (n.max_heap_alloc / 1024 / 1024) (w.max_heap_alloc / 1024 / 1024) ∧
    avgHeapSavings n w = savings (n.avg_heap_alloc / 1024 / 1024) (w.avg_heap_alloc / 1024 / 1024) ∧
    maxRssSavings n w = savings (n.max_rss / 1024 / 1024) (w.max_rss / 1024 / 1024) ∧
    extMaxSavings e1 e2 = savings e1.max e2.max ∧
    qMaxHeapSavings n w = maxHeapSavings n w ∧
    qAvgHeapSavings n w = avgHeapSavings n w ∧
    qMaxRssSavings n w = maxRssSavings n w := by
  refine ⟨rfl, fun h => by simp [savings, h], fun h => by simp [savings, not_lt.mpr h],
    by simp [savings], rfl, rfl, rfl, rfl, rfl, rfl, rfl⟩

/-- Witness for C7 at concrete inputs. -/
theorem savings_spec_witness :
    (savings 4 1).1 = 4 - 1 ∧ (savings 4 1).2 = (4 - 1) / 4 * 100 ∧
    (savings (-2) 1).2 = 0 ∧ savings 7 7 = (0, 0) :=
  ⟨(savings_spec 4 1 7 ⟨0, 0, 0, 0, 0, 0, 0, 0, 0, 0⟩ ⟨0, 0, 0, 0, 0, 0, 0, 0, 0, 0⟩
      ⟨0, 0, 0⟩ ⟨0, 0, 0⟩).1,
   (savings_spec 4 1 7 ⟨0, 0, 0, 0, 0, 0, 0, 0, 0, 0⟩ ⟨0, 0, 0, 0, 0, 0, 0, 0, 0, 0⟩
      ⟨0, 0, 0⟩ ⟨0, 0, 0⟩).2.1 (by norm_num),
   (savings_spec (-2) 1 7 ⟨0, 0, 0, 0, 0, 0, 0, 0, 0, 0⟩ ⟨0, 0, 0, 0, 0, 0, 0, 0, 0, 0⟩
      ⟨0, 0, 0⟩ ⟨0, 0, 0⟩).2.2.1 (by norm_num),
   (savings_spec 4 1 7 ⟨0, 0, 0, 0, 0, 0, 0, 0, 0, 0⟩ ⟨0, 0, 0, 0, 0, 0, 0, 0, 0, 0⟩
      ⟨0, 0, 0⟩ ⟨0, 0, 0⟩).2.2.2.1⟩

/-- C9: the run summary takes message_count, message_bytes and
batch_count from the last sample only, takes num_gc from the last sample
only, and computes gc_pause_ms as the last sample's pause_total_ns
divided by 1,000,000. -/
theorem run_summary_final_sample_fields (name : String) (f0 : FullRecord) (fs : List FullRecord) :
    ∃ s, analyzeFile name ((f0 :: fs).map toRaw) = Except.ok (some s) ∧
      s.message_count = (fs.getLastD f0).message_count ∧
      s.message_bytes = (fs.getLastD f0).message_bytes ∧
      s.batch_count = (fs.getLastD f0).batch_count ∧
      s.num_gc = (fs.getLastD f0).num_gc ∧
      s.gc_pause_ms = ((fs.getLastD f0).pause_total_ns : ℚ) / 1000000 :=
  ⟨fullSummary name f0 fs, analyzeFile_full name f0 fs, rfl, rfl, rfl, rfl, rfl⟩

/-- C10: the external adapter accepts a negative third field, so the
summary's min and avg can be negative; the data model's rss_kb ≥ 0
constraint is not enforced. -/
theorem external_negative_rss_accepted :
    ∃ s, analyzeRss ["ts,x,-512".data] = some s ∧
      s.min_rss_kb = -512 ∧ s.min_rss_kb < 0 ∧ s.avg_rss_kb < 0 ∧ s.min_rss_mb < 0 := by
  have hv : (["ts,x,-512".data] : List (List Char)).filterMap lineValue = [-512] := by decide
  refine ⟨⟨1, -512, -512, -512, -512 / 1024, -512 / 1024, -512 / 1024⟩, ?_, rfl,
    by norm_num, by norm_num, by norm_num⟩
  rw [analyzeRss, hv, rssOfValues]
  simp only [RssSummary.mk.injEq, Option.some.injEq]
  norm_num [List.foldl]

/-- C3 is refuted at a concrete two-sample run with heap_alloc values 10
and 30: the min (10) and the arithmetic mean (20) of the heap statistic
appear nowhere in the computed summary, which carries only max and final
values. -/
theorem reducer_min_avg_counterexample :
    analyzeFile "f" [toRaw fr1, toRaw fr2] =
      Except.ok (some ⟨"f", 7, 1, 8, 30, 300, 30, 300, 30, 300, 9, 1 / 250000⟩) ∧
    min fr1.heap_alloc fr2.heap_alloc = 10 ∧
    ((fr1.heap_alloc : ℚ) + (fr2.heap_alloc : ℚ)) / 2 = 20 ∧
    ((10 : ℚ) ∉ summaryValues ⟨"f", 7, 1, 8, 30, 300, 30, 300, 30, 300, 9, 1 / 250000⟩) ∧
    ((20 : ℚ) ∉ summaryValues ⟨"f", 7, 1, 8, 30, 300, 30, 300, 30, 300, 9, 1 / 250000⟩) := by
  refine ⟨?_, by norm_num [fr1, fr2], by norm_num [fr1, fr2],
    by norm_num [summaryValues], by norm_num [summaryValues]⟩
  have h := analyzeFile_full "f" fr1 [fr2]
  rw [List.map_cons, List.map_cons, List.map_nil] at h
  rw [h]
  simp only [fullSummary, fr1, fr2, Except.ok.injEq, Option.some.injEq, RunSummary.mk.injEq]
  norm_num [amplification, List.getLastD, List.foldl]

/-- C3 (amended): over a non-empty run of well-formed samples the
reduction computes, for heap_alloc and rss, only the max (via a full
scan) and the final value (the last element in the given order, no
re-sorting); no min or avg statistic over the run is produced. -/
theorem reducer_max_final_only (name : String) (f0 : FullRecord) (fs : List FullRecord) :
    ∃ s, analyzeFile name ((f0 :: fs).map toRaw) = Except.ok (some s) ∧
      (∀ g ∈ f0 :: fs, g.heap_alloc ≤ s.max_heap ∧ g.rss ≤ s.max_rss) ∧
      s.max_heap ∈ (f0 :: fs).map FullRecord.heap_alloc ∧
      s.max_rss ∈ (f0 :: fs).map FullRecord.rss ∧
      s.final_heap = (fs.getLastD f0).heap_alloc ∧
      s.final_rss = (fs.getLastD f0).rss := by
  refine ⟨fullSummary name f0 fs, analyzeFile_full name f0 fs, ?_, ?_, ?_, rfl, rfl⟩
  · intro g hg
    constructor
    · rcases List.mem_cons.mp hg with rfl | hg2
      · exact le_foldlMax _ _ _ (List.mem_cons_self _ _)
      · exact le_foldlMax _ _ _ (List.mem_cons_of_mem _ (List.mem_map_of_mem _ hg2))
    · rcases List.mem_cons.mp hg with rfl | hg2
      · exact le_foldlMax _ _ _ (List.mem_cons_self _ _)
      · exact le_foldlMax _ _ _ (List.mem_cons_of_mem _ (List.mem_map_of_mem _ hg2))
  · exact foldlMax_mem f0.heap_alloc (fs.map FullRecord.heap_alloc)
  · exact foldlMax_mem f0.rss (fs.map FullRecord.rss)

/-- C1: with at least two summaries, the improvement factor is
worst_ratio / best_ratio, and when the best ratio is exactly 0 the
ranking signals an explicit error (the model of the raised
ZeroDivisionError) instead of returning any numeric result. -/
theorem ranking_zero_baseline_signals_error (x y : RunSummary) (rest : List RunSummary) :
    ((pyMinBy RunSummary.heap_ratio x (y :: rest)).heap_ratio = 0 →
      rankResults (x :: y :: rest) = some (Except.error PyErr.zeroDivision)) ∧
    ((pyMinBy RunSummary.heap_ratio x (y :: rest)).heap_ratio ≠ 0 →
      rankResults (x :: y :: rest) = some (Except.ok
        ((pyMinBy RunSummary.heap_ratio x (y :: rest)).file,
         (pyMaxBy RunSummary.heap_ratio x (y :: rest)).file,
         (pyMaxBy RunSummary.heap_ratio x (y :: rest)).heap_ratio /
           (pyMinBy RunSummary.heap_ratio x (y :: rest)).heap_ratio))) := by
  constructor
  · intro h0
    simp [rankResults, h0]
  · intro h0
    simp [rankResults, h0]

/-- Witness for C1: ranking with best ratio 0 errors; ranking with ratios
2 and 1/2 returns the 4x improvement factor. -/
theorem ranking_zero_baseline_signals_error_witness :
    rankResults [runZero, runFive] = some (Except.error PyErr.zeroDivision) ∧
    rankResults [runA, runB] = some (Except.ok ("b", "a", 4)) := by
  constructor
  · exact (ranking_zero_baseline_signals_error runZero runFive []).1
      (by norm_num [pyMinBy, List.foldl, runZero, runFive])
  · have h := (ranking_zero_baseline_signals_error runA runB []).2
      (by norm_num [pyMinBy, List.foldl, runA, runB])
    rw [h]
    norm_num [pyMinBy, pyMaxBy, List.foldl, runA, runB]

/-- C5: ranking over at least two summaries selects best as the argmin
and worst as the argmax of the ratio, breaking ties by first occurrence
in input order, and returns worst_ratio / best_ratio; a single-summary
or empty input yields no ranking. -/
theorem ranking_argmin_argmax_first_seen (x y : RunSummary) (rest : List RunSummary)
    (hne : (pyMinBy RunSummary.heap_ratio x (y :: rest)).heap_ratio ≠ 0) :
    rankResults (x :: y :: rest) = some (Except.ok
      ((pyMinBy RunSummary.heap_ratio x (y :: rest)).file,
       (pyMaxBy RunSummary.heap_ratio x (y :: rest)).file,
       (pyMaxBy RunSummary.heap_ratio x (y :: rest)).heap_ratio /
         (pyMinBy RunSummary.heap_ratio x (y :: rest)).heap_ratio)) ∧
    (∃ l₁ l₂, x :: y :: rest = l₁ ++ pyMinBy RunSummary.heap_ratio x (y :: rest) :: l₂ ∧
      ∀ r ∈ l₁, (pyMinBy RunSummary.heap_ratio x (y :: rest)).heap_ratio < r.heap_ratio) ∧
    (∀ r ∈ x :: y :: rest,
      (pyMinBy RunSummary.heap_ratio x (y :: rest)).heap_ratio ≤ r.heap_ratio) ∧
    (∃ l₁ l₂, x :: y :: rest = l₁ ++ pyMaxBy RunSummary.heap_ratio x (y :: rest) :: l₂ ∧
      ∀ r ∈ l₁, r.heap_ratio < (pyMaxBy RunSummary.heap_ratio x (y :: rest)).heap_ratio) ∧
    (∀ r ∈ x :: y :: rest,
      r.heap_ratio ≤ (pyMaxBy RunSummary.heap_ratio x (y :: rest)).heap_ratio) ∧
    (∀ z : RunSummary, rankResults [z] = none) ∧
    rankResults ([] : List RunSummary) = none := by
  refine ⟨by simp [rankResults, hne], ?_, ?_, ?_, ?_, fun z => rfl, rfl⟩
  · obtain ⟨l₁, l₂, hdec, hlt, hle⟩ := pyMinBy_first RunSummary.heap_ratio x (y :: rest)
    exact ⟨l₁, l₂, hdec, hlt⟩
  · obtain ⟨l₁, l₂, hdec, hlt, hle⟩ := pyMinBy_first RunSummary.heap_ratio x (y :: rest)
    exact hle
  · obtain ⟨l₁, l₂, hdec, hlt, hle⟩ := pyMaxBy_first RunSummary.heap_ratio x (y :: rest)
    exact ⟨l₁, l₂, hdec, hlt⟩
  · obtain ⟨l₁, l₂, hdec, hlt, hle⟩ := pyMaxBy_first RunSummary.heap_ratio x (y :: rest)
    exact hle

/-- Witness for C5 with the two-summary input of ratios 2 and 1/2: best
is the ratio-1/2 summary, worst the ratio-2 summary, factor 4. -/
theorem ranking_argmin_argmax_first_seen_witness :
    (pyMinBy RunSummary.heap_ratio runA [runB]).heap_ratio ≠ 0 ∧
    (rankResults [runA, runB] = some (Except.ok
      ((pyMinBy RunSummary.heap_ratio runA [runB]).file,
       (pyMaxBy RunSummary.heap_ratio runA [runB]).file,
       (pyMaxBy RunSummary.heap_ratio runA [runB]).heap_ratio /
         (pyMinBy RunSummary.heap_ratio runA [runB]).heap_ratio)) ∧
    (∃ l₁ l₂, runA :: runB :: [] = l₁ ++ pyMinBy RunSummary.heap_ratio runA [runB] :: l₂ ∧
      ∀ r ∈ l₁, (pyMinBy RunSummary.heap_ratio runA [runB]).heap_ratio < r.heap_ratio) ∧
    (∀ r ∈ runA :: runB :: ([] : List RunSummary),
      (pyMinBy RunSummary.heap_ratio runA [runB]).heap_ratio ≤ r.heap_ratio) ∧
    (∃ l₁ l₂, runA :: runB :: [] = l₁ ++ pyMaxBy RunSummary.heap_ratio runA [runB] :: l₂ ∧
      ∀ r ∈ l₁, r.heap_ratio < (pyMaxBy RunSummary.heap_ratio runA [runB]).heap_ratio) ∧
    (∀ r ∈ runA :: runB :: ([] : List RunSummary),
      r.heap_ratio ≤ (pyMaxBy RunSummary.heap_ratio runA [runB]).heap_ratio) ∧
    (∀ z : RunSummary, rankResults [z] = none) ∧
    rankResults ([] : List RunSummary) = none) := by
  have hne : (pyMinBy RunSummary.heap_ratio runA [runB]).heap_ratio ≠ 0 := by
    norm_num [pyMinBy, List.foldl, runA, runB]
  exact ⟨hne, ranking_argmin_argmax_first_seen runA runB [] hne⟩

/-- C2 is refuted: one record missing the rss key makes the whole
artifact's analysis raise KeyError, even though its sibling record is
well-formed and analyzes successfully on its own; the good record is not
returned. -/
theorem timeline_record_skip_counterexample :
    analyzeFile "a" [goodRec, badRec] = Except.error PyErr.keyError ∧
    analyzeFile "a" [goodRec] =
      Except.ok (some ⟨"a", 2, 1, 3, 10, 20, 10, 20, 10, 20, 4, 1 / 200000⟩) := by
  constructor
  · decide
  · calc analyzeFile "a" [goodRec]
        = analyzeFile "a" (((⟨10, 20, 1, 2, 3, 4, 5⟩ : FullRecord) :: []).map toRaw) := rfl
      _ = Except.ok (some (fullSummary "a" ⟨10, 20, 1, 2, 3, 4, 5⟩ [])) :=
          analyzeFile_full _ _ _
      _ = Except.ok (some ⟨"a", 2, 1, 3, 10, 20, 10, 20, 10, 20, 4, 1 / 200000⟩) := by
          simp only [fullSummary, Except.ok.injEq, Option.some.injEq, RunSummary.mk.injEq]
          norm_num [amplification, List.getLastD, List.foldl]

/-- C2 (amended): a record missing a required field (heap_alloc or rss)
makes the whole artifact's analysis raise; the per-artifact try/except in
the main loop then drops that artifact while every other artifact is
still processed. -/
theorem timeline_malformed_record_aborts_artifact (name : String) (stats : List RawRecord)
    (r : RawRecord) (hmem : r ∈ stats) (hbad : r.heap_alloc = none ∨ r.rss = none) :
    analyzeFile name stats = Except.error PyErr.keyError ∧
    ∀ pre post, mainResults (pre ++ (name, stats) :: post) = mainResults pre ++ mainResults post := by
  have herr : analyzeFile name stats = Except.error PyErr.keyError := by
    cases stats with
    | nil => simp at hmem
    | cons s0 rest =>
      rcases hbad with hb | hb
      · have hn : none ∈ (s0 :: rest).map RawRecord.heap_alloc := by
          rw [← hb]
          exact List.mem_map_of_mem _ hmem
        have h1 := sequenceFields_has_none _ hn
        rw [List.map_cons] at h1
        simp [analyzeFile, h1]
      · have hn : none ∈ (s0 :: rest).map RawRecord.rss := by
          rw [← hb]
          exact List.mem_map_of_mem _ hmem
        have h2 := sequenceFields_has_none _ hn
        rw [List.map_cons] at h2
        cases hfst : sequenceFields (s0.heap_alloc :: List.map RawRecord.heap_alloc rest) with
        | ok o => simp [analyzeFile, h2, hfst]
        | error e => simp [analyzeFile, h2, hfst]
  refine ⟨herr, fun pre post => ?_⟩
  rw [mainResults_append]
  congr 1
  simp [mainResults, herr]

/-- Witness for the amended C2: the two-record artifact with a missing
rss key errors as a whole, and the main loop keeps processing the
artifacts before and after it. -/
theorem timeline_malformed_record_aborts_artifact_witness :
    badRec ∈ [goodRec, badRec] ∧ (badRec.heap_alloc = none ∨ badRec.rss = none) ∧
    analyzeFile "a" [goodRec, badRec] = Except.error PyErr.keyError ∧
    mainResults ([("b", [goodRec])] ++ ("a", [goodRec, badRec]) :: [("c", [goodRec])]) =
      mainResults [("b", [goodRec])] ++ mainResults [("c", [goodRec])] := by
  have hmem : badRec ∈ [goodRec, badRec] := by decide
  have hbad : badRec.heap_alloc = none ∨ badRec.rss = none := Or.inr rfl
  have h := timeline_malformed_record_aborts_artifact "a" [goodRec, badRec] badRec hmem hbad
  exact ⟨hmem, hbad, h.1, h.2 [("b", [goodRec])] [("c", [goodRec])]⟩

/-- C8 is refuted: the header check is a prefix test
(`startswith('timestamp')`), not a first-field test.  The line
"timestamp2,x,512" satisfies every validity condition the claim states
(non-empty, first field not literally "timestamp", 3 fields, integer
third field) yet the code skips it, yielding no data at all. -/
theorem header_prefix_counterexample :
    specContributes ("timestamp2,x,512".data) = true ∧
    lineValue ("timestamp2,x,512".data) = none ∧
    analyzeRss ["timestamp2,x,512".data] = none := by
  refine ⟨by decide, by decide, ?_⟩
  have hv : (["timestamp2,x,512".data] : List (List Char)).filterMap lineValue = [] := by
    decide
  rw [analyzeRss, hv]
  rfl

/-- C8 (amended): after stripping whitespace from both ends, a line
contributes a sample iff it is non-empty, does not start with the prefix
"timestamp", has at least 3 comma-separated fields and its third field
parses as an integer; any other line is skipped while the remaining
lines are still processed, and an input with zero valid lines yields
None rather than an error or a zero-valued summary. -/
theorem external_line_validity :
    (∀ l v, lineValue l = some v ↔
      (pyStrip l ≠ [] ∧ pyStartsWith ("timestamp".data) (pyStrip l) = false ∧
       3 ≤ (pySplitComma (pyStrip l)).length ∧
       pyInt ((pySplitComma (pyStrip l)).getD 2 []) = some v)) ∧
    (∀ lines, analyzeRss lines = none ↔ lines.filterMap lineValue = []) ∧
    (∀ pre bad post, lineValue bad = none →
      analyzeRss (pre ++ bad :: post) = analyzeRss (pre ++ post)) := by
  refine ⟨?_, ?_, ?_⟩
  · intro l v
    constructor
    · intro h
      simp only [lineValue] at h
      split_ifs at h with h1 h2 h3
      all_goals try (simp at h)
      exact ⟨h1, by simpa using h2, h3, by simpa using h⟩
    · rintro ⟨h1, h2, h3, h4⟩
      simp [lineValue, h1, h2, h3]
      simpa using h4
  · intro lines
    rw [analyzeRss]
    cases hv : lines.filterMap lineValue with
    | nil => simp [rssOfValues]
    | cons v vs => simp [rssOfValues]
  · intro pre bad post hbad
    rw [analyzeRss, analyzeRss, List.filterMap_append, List.filterMap_append,
      List.filterMap_cons, hbad]

/-- Witness for the amended C8: a valid line, a skipped garbage line that
leaves its siblings processed, and an artifact with zero valid lines
yielding None. -/
theorem external_line_validity_witness :
    lineValue ("garbage".data) = none ∧
    analyzeRss ["a,b,1".data, "garbage".data, "c,d,3".data] =
      analyzeRss ["a,b,1".data, "c,d,3".data] ∧
    (lineValue ("a,b,1".data) = some 1 ↔
      (pyStrip ("a,b,1".data) ≠ [] ∧
       pyStartsWith ("timestamp".data) (pyStrip ("a,b,1".data)) = false ∧
       3 ≤ (pySplitComma (pyStrip ("a,b,1".data))).length ∧
       pyInt ((pySplitComma (pyStrip ("a,b,1".data))).getD 2 []) = some 1)) ∧
    (analyzeRss [("x".data)] = none ↔ ([("x".data)] : List (List Char)).filterMap lineValue = []) := by
  have hbad : lineValue ("garbage".data) = none := by decide
  exact ⟨hbad,
    external_line_validity.2.2 ["a,b,1".data] ("garbage".data) ["c,d,3".data] hbad,
    external_line_validity.1 ("a,b,1".data) 1,
    external_line_validity.2.1 [("x".data)]⟩
